import Mathlib

/-!
Verification of the memento hybrid-retrieval extension against its
specification.  The JavaScript sources are shallowly embedded: JS objects
(which preserve string-key insertion order) become association lists, JS
numbers become rationals (reals only where `Math.sqrt` forces them),
`Date.now()` becomes an explicit clock parameter, the deterministic
embedding generator becomes an explicit function parameter, and throwing
code returns `Except`.
-/

set_option maxRecDepth 40000

deriving instance DecidableEq for Except

namespace Memento

/-! ## Association lists modelling JS objects / Maps

JS plain objects enumerate non-numeric string keys in insertion order and
`Object.entries` follows that order; `setKey` therefore updates an existing
key in place and appends a fresh key at the end, exactly like assignment to
an object property. -/

/-- First value bound to key `k`, like `obj[k]` / `map.get(k)`. -/
def lookupKey {κ α : Type} [DecidableEq κ] (k : κ) : List (κ × α) → Option α
  | [] => none
  | (q, v) :: rest => if q = k then some v else lookupKey k rest

/-- Assignment `obj[k] = v`: overwrite in place if present, append at the end if not. -/
def setKey {κ α : Type} [DecidableEq κ] (k : κ) (v : α) : List (κ × α) → List (κ × α)
  | [] => [(k, v)]
  | (q, w) :: rest => if q = k then (q, v) :: rest else (q, w) :: setKey k v rest

theorem lookupKey_setKey_self {κ α : Type} [DecidableEq κ] (k : κ) (v : α)
    (l : List (κ × α)) : lookupKey k (setKey k v l) = some v := by
  induction l with
  | nil => simp [setKey, lookupKey]
  | cons hd tl ih =>
    obtain ⟨q, w⟩ := hd
    by_cases hq : q = k
    · simp [setKey, lookupKey, hq]
    · simp [setKey, lookupKey, hq, ih]

theorem lookupKey_setKey_ne {κ α : Type} [DecidableEq κ] {k q : κ} (v : α)
    (l : List (κ × α)) (h : q ≠ k) :
    lookupKey q (setKey k v l) = lookupKey q l := by
  induction l with
  | nil => simp [setKey, lookupKey, Ne.symm h]
  | cons hd tl ih =>
    obtain ⟨p, w⟩ := hd
    by_cases hp : p = k
    · subst hp
      simp [setKey, lookupKey, Ne.symm h]
    · simp [setKey, lookupKey, hp, ih]

theorem setKey_setKey_same {κ α : Type} [DecidableEq κ] (k : κ) (v w : α)
    (l : List (κ × α)) : setKey k w (setKey k v l) = setKey k w l := by
  induction l with
  | nil => simp [setKey]
  | cons hd tl ih =>
    obtain ⟨q, u⟩ := hd
    by_cases hq : q = k
    · simp [setKey, hq]
    · simp [setKey, hq, ih]

/-! ## Tokenizer and URL normalization (`inverted-index.js`)

`tokenize`: lowercase, replace every character that is neither a word
character (`\w` = ASCII letters, digits, underscore) nor whitespace by a
space, split on whitespace, and keep only tokens of length > 1.
`normalizeUrl`: strip a leading `http://`/`https://`, a leading `www.`,
and one trailing slash. -/

def isWordChar (c : Char) : Bool := c.isAlphanum || c = '_'

/-- Split a character list at every separator character, like
`String.split` / JS `split` (runs of separators produce empty pieces,
which the tokenizer's length filter discards anyway). -/
def splitChars (p : Char → Bool) : List Char → List Char → List (List Char)
  | [], acc => [acc.reverse]
  | c :: cs, acc =>
      if p c then acc.reverse :: splitChars p cs [] else splitChars p cs (c :: acc)

def tokenize (text : String) : List String :=
  let lowered := text.data.map Char.toLower
  let replaced := lowered.map fun c => if isWordChar c || c.isWhitespace then c else ' '
  ((splitChars Char.isWhitespace replaced []).map String.mk).filter fun t => 1 < t.length

def normalizeUrl (url : String) : String :=
  let noScheme :=
    if url.take 8 = "https://" then url.drop 8
    else if url.take 7 = "http://" then url.drop 7
    else url
  let noWww := if noScheme.take 4 = "www." then noScheme.drop 4 else noScheme
  if noWww.takeRight 1 = "/" then noWww.dropRight 1 else noWww

/-! ## Inverted index state (`InvertedIndex`) -/

/-- A stored document record: `{url, title, content, timestamp: Date.now()}`. -/
structure Doc where
  url : String
  title : String
  content : String
  timestamp : ℕ
deriving DecidableEq, Repr

/-- The mutable fields of the `InvertedIndex` class. -/
structure IndexState where
  index : List (String × List String)
  documents : List (String × Doc)
  embeddings : List (String × List ℚ)
  inited : Bool
deriving DecidableEq, Repr

/-- One step of the posting-list update loop in `addDocument`:
`if (!index[token]) index[token] = []; if (!index[token].includes(docId)) push`. -/
def indexToken (docId : String) (ix : List (String × List String)) (token : String) :
    List (String × List String) :=
  let postings := (lookupKey token ix).getD []
  if docId ∈ postings then ix else setKey token (postings ++ [docId]) ix

/-- Method `InvertedIndex.addDocument(url, content, title)`.  `embed` stands for the
deterministic `EmbeddingGenerator.generateEmbedding` and `now` for
`Date.now()`, both made explicit parameters. -/
def addDocument (embed : String → List ℚ) (now : ℕ) (url content title : String)
    (s : IndexState) : Except String IndexState :=
  if s.inited = false then .error "InvertedIndex not initialized"
  else
    let docId := normalizeUrl url
    let documents := setKey docId ⟨url, title, content, now⟩ s.documents
    let embeddings := setKey docId (embed content) s.embeddings
    let tokens := tokenize (content ++ " " ++ title)
    let index := tokens.foldl (indexToken docId) s.index
    .ok { s with index := index, documents := documents, embeddings := embeddings }

/-- One entry of the array `results` built by `search`. -/
structure SearchResult where
  url : String
  title : String
  content : String
  score : ℚ
  timestamp : ℕ
deriving DecidableEq, Repr

/-- Snippet construction `content.substring(0, 200) + '...'`. -/
def snippet (content : String) : String := content.take 200 ++ "..."

/-- Accumulation of `docScores` in the text branch of `search`:
for each query token, each posted document's count is incremented. -/
def scoreToken (s : IndexState) (m : List (String × ℚ)) (token : String) :
    List (String × ℚ) :=
  ((lookupKey token s.index).getD []).foldl
    (fun m docId => setKey docId ((lookupKey docId m).getD 0 + 1) m) m

def docScores (s : IndexState) (tokens : List String) : List (String × ℚ) :=
  tokens.foldl (scoreToken s) []

/-- The text branch of `search`: convert `docScores` entries (in insertion
order, as `Object.entries` does) to result records. -/
def textResults (s : IndexState) (tokens : List String) : List SearchResult :=
  (docScores s tokens).foldl
    (fun rs kv =>
      match lookupKey kv.1 s.documents with
      | some doc =>
          rs ++ [⟨doc.url, doc.title, snippet doc.content,
                  kv.2 / (tokens.length : ℚ), doc.timestamp⟩]
      | none => rs)
    []

/-- Lookup `results.find(r => r.url === doc.url)` followed by the in-place score
update `existingResult.score = (existingResult.score + similarity) / 2`. -/
def updateFirstScore (url : String) (similarity : ℚ) :
    List SearchResult → List SearchResult
  | [] => []
  | r :: rs =>
      if r.url = url then { r with score := (r.score + similarity) / 2 } :: rs
      else r :: updateFirstScore url similarity rs

/-- The vector branch of `search`.  `sim` stands for `cosineSimilarity`
(whose real-valued definition is given separately below); dereferencing a
missing `documents[docId]` is the JS `TypeError` this code would throw. -/
def vectorResults (sim : List ℚ → List ℚ → ℚ) (queryEmbedding : List ℚ)
    (s : IndexState) (rs : List SearchResult) :
    List (String × List ℚ) → Except String (List SearchResult)
  | [] => .ok rs
  | (docId, embedding) :: rest =>
      match lookupKey docId s.documents with
      | none => .error "TypeError: doc is undefined"
      | some doc =>
          let similarity := sim queryEmbedding embedding
          let rs' :=
            if rs.any fun r => r.url = doc.url then updateFirstScore doc.url similarity rs
            else rs ++ [⟨doc.url, doc.title, snippet doc.content, similarity, doc.timestamp⟩]
          vectorResults sim queryEmbedding s rs' rest

/-- The comparator `(a, b) => b.score - a.score` orders by score,
descending. -/
def scoreGE (a b : SearchResult) : Prop := b.score ≤ a.score

instance : DecidableRel scoreGE := fun a b => inferInstanceAs (Decidable (b.score ≤ a.score))

instance : IsTotal SearchResult scoreGE := ⟨fun a b => le_total b.score a.score⟩

instance : IsTrans SearchResult scoreGE := ⟨fun _ _ _ hab hbc => le_trans hbc hab⟩

/-- Sorting `results.sort((a, b) => b.score - a.score)`: JS `Array.prototype.sort`
is required to be stable, so it is the stable descending-by-score sort. -/
def sortResults (rs : List SearchResult) : List SearchResult :=
  List.insertionSort scoreGE rs

/-- The accumulation phase of `search`: the text branch followed by the
vector branch, before sorting and truncation. -/
def searchAccum (embed : String → List ℚ) (sim : List ℚ → List ℚ → ℚ)
    (query searchType : String) (s : IndexState) :
    Except String (List SearchResult) :=
  let tokens := tokenize query
  let rs1 :=
    if searchType = "text" ∨ searchType = "hybrid" then textResults s tokens else []
  if searchType = "vector" ∨ searchType = "hybrid" then
    vectorResults sim (embed query) s rs1 s.embeddings
  else .ok rs1

/-- Method `InvertedIndex.search(query, searchType, limit)`. -/
def search (embed : String → List ℚ) (sim : List ℚ → List ℚ → ℚ)
    (query searchType : String) (limit : ℕ) (s : IndexState) :
    Except String (List SearchResult) :=
  if s.inited = false then .error "InvertedIndex not initialized"
  else
    match searchAccum embed sim query searchType s with
    | .error e => .error e
    | .ok rs => .ok ((sortResults rs).take limit)

/-! ## Journey tracker (`journey-tracker.js`)

`trackVisit` upserts the node for the visited url, sets the root on the
first-ever visit, and — when a previous, truthy (non-empty) and different
`current` url exists — upserts the edge keyed by the template string
`` `${current}_${url}` ``.  The `timestamp || new Date().toISOString()`
fallback is modelled with the explicit clock string `nowIso` (the empty
string is the falsy case). -/

structure JourneyNode where
  url : String
  title : String
  lastVisited : String
  visitCount : ℕ
deriving DecidableEq, Repr

structure JourneyEdge where
  source : String
  target : String
  traversals : ℕ
  lastTraversed : Option String
deriving DecidableEq, Repr

structure JourneyState where
  nodes : List (String × JourneyNode)
  edges : List (String × JourneyEdge)
  root : Option String
  current : Option String
deriving DecidableEq, Repr

/-- The edge upsert inside `trackVisit`: run only when a previous page
exists, is truthy (nonempty) and differs from the new url. -/
def visitEdges (cur url stamp : String) (edges : List (String × JourneyEdge)) :
    List (String × JourneyEdge) :=
  if cur ≠ "" ∧ cur ≠ url then
    let key := cur ++ "_" ++ url
    match lookupKey key edges with
    | none => setKey key ⟨cur, url, 0 + 1, some stamp⟩ edges
    | some e => setKey key ⟨e.source, e.target, e.traversals + 1, some stamp⟩ edges
  else edges

def trackVisit (url title ts nowIso : String) (j : JourneyState) : JourneyState :=
  let stamp := if ts = "" then nowIso else ts
  let nodes := setKey url
    ⟨url, title, stamp, ((lookupKey url j.nodes).map (·.visitCount)).getD 0 + 1⟩ j.nodes
  let root := match j.root with
    | none => some url
    | some r => some r
  let edges := match j.current with
    | none => j.edges
    | some cur => visitEdges cur url stamp j.edges
  { nodes := nodes, edges := edges, root := root, current := some url }

/-! ## Attention aggregation (`updateInteractionData` handler in the v0
background script)

Per reported element path: if unseen, the reported record is inserted
as-is; if seen, `timeVisible` is added to the running total and
`visibilityPercentage` is replaced by the max.  Document-level counters
accumulate by addition (under JS truthiness: a `0` report is skipped,
which adds nothing either way). -/

structure VPData where
  timeVisible : ℚ
  visibilityPercentage : ℚ
  element : String
deriving DecidableEq, Repr

structure TabData where
  viewportData : List (String × VPData)
  cursorMovement : ℚ
  scrollEvents : ℚ
  startTime : ℕ
deriving DecidableEq, Repr

/-- One step of the `Object.entries(request.viewportData).forEach` merge
loop: insert an unseen path as-is, otherwise add the reported
`timeVisible` and keep the max `visibilityPercentage`. -/
def mergeOne (acc : List (String × VPData)) (kv : String × VPData) :
    List (String × VPData) :=
  match lookupKey kv.1 acc with
  | none => setKey kv.1 kv.2 acc
  | some d =>
      setKey kv.1
        { d with
          timeVisible := d.timeVisible + kv.2.timeVisible
          visibilityPercentage := max d.visibilityPercentage kv.2.visibilityPercentage }
        acc

/-- The `Object.entries(request.viewportData).forEach` merge loop. -/
def mergeViewport (cur : List (String × VPData)) (reported : List (String × VPData)) :
    List (String × VPData) :=
  reported.foldl mergeOne cur

/-- The `updateInteractionData` message handler: get-or-create the tab's
accumulator, merge the reported viewport data, add the interaction
counters, and store the tab entry back. -/
def updateInteractionData (tabId : ℕ) (reported : List (String × VPData))
    (cursor scroll : ℚ) (now : ℕ) (st : List (ℕ × TabData)) : List (ℕ × TabData) :=
  let cur := (lookupKey tabId st).getD ⟨[], 0, 0, now⟩
  let d1 := { cur with viewportData := mergeViewport cur.viewportData reported }
  let d2 := { d1 with
    cursorMovement := if cursor ≠ 0 then d1.cursorMovement + cursor else d1.cursorMovement }
  let d3 := { d2 with
    scrollEvents := if scroll ≠ 0 then d2.scrollEvents + scroll else d2.scrollEvents }
  setKey tabId d3 st

/-! ## Combined mutable state touched by visits and telemetry reports -/

structure SystemState where
  journey : JourneyState
  interactions : List (ℕ × TabData)
deriving DecidableEq, Repr

/-- The two state-mutating operations the invariant claims range over. -/
inductive Op where
  | visit (url title ts nowIso : String)
  | report (tabId : ℕ) (reported : List (String × VPData)) (cursor scroll : ℚ) (now : ℕ)
deriving DecidableEq, Repr

def stepOp (st : SystemState) (op : Op) : SystemState :=
  match op with
  | .visit url title ts nowIso => { st with journey := trackVisit url title ts nowIso st.journey }
  | .report tabId reported cursor scroll now =>
      { st with interactions := updateInteractionData tabId reported cursor scroll now st.interactions }

def runOps (ops : List Op) (st : SystemState) : SystemState := ops.foldl stepOp st

/-- A report is well-formed when every reported `timeVisible` is
nonnegative (visits always are). -/
def validOp : Op → Bool
  | .visit _ _ _ _ => true
  | .report _ reported _ _ _ => reported.all fun kv => decide (0 ≤ kv.2.timeVisible)

def validOps (ops : List Op) : Bool := ops.all validOp

def nodeVisitCount (u : String) (st : SystemState) : Option ℕ :=
  (lookupKey u st.journey.nodes).map (·.visitCount)

def edgeTraversals (k : String) (st : SystemState) : Option ℕ :=
  (lookupKey k st.journey.edges).map (·.traversals)

def pathTimeVisible (tabId : ℕ) (p : String) (st : SystemState) : Option ℚ :=
  (lookupKey tabId st.interactions).bind fun td =>
    (lookupKey p td.viewportData).map (·.timeVisible)

def pathVisibility (tabId : ℕ) (p : String) (st : SystemState) : Option ℚ :=
  (lookupKey tabId st.interactions).bind fun td =>
    (lookupKey p td.viewportData).map (·.visibilityPercentage)

/-- Option `a` is at most `b` where present: whatever value is stored before is
still stored after, possibly grown. -/
def optionMono {α : Type} [LE α] (a b : Option α) : Prop :=
  ∀ v, a = some v → ∃ w, b = some w ∧ v ≤ w

/-! ## Viewport tracker (`extension/viewport-tracker.js`) -/

structure TrackerState where
  viewportData : List (String × VPData)
  cursorMovement : ℚ
  scrollEvents : ℚ
deriving DecidableEq, Repr

structure ReportMessage where
  viewportData : List (String × VPData)
  cursorMovement : ℚ
  scrollEvents : ℚ
deriving DecidableEq, Repr

/-- Function `reportData`: send the ≥ 500 ms slice of the accumulated viewport map
together with the two interaction counters, then reset only those two
counters. -/
def reportData (s : TrackerState) : ReportMessage × TrackerState :=
  let filtered := s.viewportData.filter fun kv => decide (500 ≤ kv.2.timeVisible)
  (⟨filtered, s.cursorMovement, s.scrollEvents⟩,
   { s with cursorMovement := 0, scrollEvents := 0 })

/-! ## Cosine similarity (`InvertedIndex.cosineSimilarity`)

The one place where JS float arithmetic (`Math.sqrt`) appears; modelled
over the reals. -/

def dotProduct (v1 v2 : List ℝ) : ℝ := (List.zipWith (· * ·) v1 v2).sum

def magnitudeSq (v : List ℝ) : ℝ := (v.map fun x => x * x).sum

noncomputable def cosineSimilarity (v1 v2 : List ℝ) : Except String ℝ :=
  if v1.length ≠ v2.length then .error "Vectors must have the same dimensions"
  else
    let mag1 := Real.sqrt (magnitudeSq v1)
    let mag2 := Real.sqrt (magnitudeSq v2)
    if mag1 = 0 ∨ mag2 = 0 then .ok 0
    else .ok (dotProduct v1 v2 / (mag1 * mag2))

/-! ## Concrete sample data used by counterexamples and witnesses -/

def embedZero : String → List ℚ := fun _ => []

def simZero : List ℚ → List ℚ → ℚ := fun _ _ => 0

/-- A reachable index state: two documents, both containing the token
`hello`, the first one stored with the older timestamp. -/
def sampleIndex : IndexState :=
  { index := [("hello", ["a.com", "b.com"])]
  , documents := [("a.com", ⟨"http://a.com", "A", "hello", 0⟩),
                  ("b.com", ⟨"http://b.com", "B", "hello hello", 1⟩)]
  , embeddings := []
  , inited := true }

def resultA : SearchResult := ⟨"http://a.com", "A", "hello...", 1, 0⟩

def resultB : SearchResult := ⟨"http://b.com", "B", "hello hello...", 1, 1⟩

/-! ## Sorting facts shared by the ranking claims -/

theorem sortResults_pairwise (l : List SearchResult) :
    (sortResults l).Pairwise scoreGE :=
  List.sorted_insertionSort scoreGE l

theorem search_ok_pairwise {embed : String → List ℚ} {sim : List ℚ → List ℚ → ℚ}
    {q mode : String} {limit : ℕ} {s : IndexState} {rs : List SearchResult}
    (h : search embed sim q mode limit s = .ok rs) :
    rs.Pairwise scoreGE := by
  unfold search at h
  by_cases hinit : s.inited = false
  · rw [if_pos hinit] at h
    exact absurd h (by simp)
  · rw [if_neg hinit] at h
    cases hacc : searchAccum embed sim q mode s with
    | error e =>
        rw [hacc] at h
        exact absurd h (by simp)
    | ok pre =>
        rw [hacc] at h
        have hrs : rs = (sortResults pre).take limit := by
          simpa using h.symm
        subst hrs
        exact (sortResults_pairwise pre).sublist (List.take_sublist _ _)

theorem sortResults_cons (a : SearchResult) (l : List SearchResult) :
    sortResults (a :: l) = List.orderedInsert scoreGE a (sortResults l) := rfl

theorem filter_orderedInsert (c : ℚ) (a : SearchResult) (l : List SearchResult) :
    (List.orderedInsert scoreGE a l).filter (fun r => decide (r.score = c)) =
      if a.score = c then a :: l.filter (fun r => decide (r.score = c))
      else l.filter (fun r => decide (r.score = c)) := by
  induction l with
  | nil => by_cases hc : a.score = c <;> simp [List.orderedInsert, hc]
  | cons b l ih =>
    by_cases hab : scoreGE a b
    · by_cases hc : a.score = c <;> simp [List.orderedInsert, hab, hc]
    · have hb : a.score < b.score := by
        have := hab
        simp only [scoreGE, not_le] at this
        exact this
      by_cases hc : a.score = c
      · have hbc : ¬ b.score = c := by
          rw [← hc]
          exact ne_of_gt hb
        simp [List.orderedInsert, hab, hc, ih, hbc]
      · by_cases hbc : b.score = c <;>
          simp [List.orderedInsert, hab, hc, ih, hbc]

theorem filter_sortResults (c : ℚ) (l : List SearchResult) :
    (sortResults l).filter (fun r => decide (r.score = c)) =
      l.filter (fun r => decide (r.score = c)) := by
  induction l with
  | nil => rfl
  | cons a l ih =>
    rw [sortResults_cons, filter_orderedInsert]
    by_cases hc : a.score = c <;> simp [hc, ih]

/-- Claim C3 (counterexample).  The claim says equal-score results are
tie-broken by timestamp, most recent first.  In fact `search` sorts with
the comparator `b.score - a.score` only: on `sampleIndex` the query
`hello` yields two results of equal score 1 with the *older* document
(timestamp 0) listed before the newer one (timestamp 1). -/
theorem c3_counterexample :
    search embedZero simZero "hello" "text" 10 sampleIndex = .ok [resultA, resultB] ∧
    resultA.score = resultB.score ∧ resultA.timestamp < resultB.timestamp := by
  refine ⟨by with_unfolding_all decide, by with_unfolding_all decide, by decide⟩

/-- Claim C3 (amended).  Every successful `search` call returns results
sorted descending by combined score, and the sort is stable: results of
equal score keep their pre-sort accumulation order (there is no timestamp
tie-break). -/
theorem c3_sorted_stable_no_timestamp_tiebreak :
    (∀ (embed : String → List ℚ) (sim : List ℚ → List ℚ → ℚ) (q mode : String)
        (limit : ℕ) (s : IndexState) (rs : List SearchResult),
        search embed sim q mode limit s = .ok rs → rs.Pairwise scoreGE) ∧
    ∀ (l : List SearchResult) (c : ℚ),
      (sortResults l).filter (fun r => decide (r.score = c)) =
        l.filter (fun r => decide (r.score = c)) :=
  ⟨fun _ _ _ _ _ _ _ h => search_ok_pairwise h, fun l c => filter_sortResults c l⟩

theorem c3_witness :
    search embedZero simZero "hello" "text" 10 sampleIndex = .ok [resultA, resultB] ∧
    List.Pairwise scoreGE [resultA, resultB] :=
  ⟨by with_unfolding_all decide,
   c3_sorted_stable_no_timestamp_tiebreak.1 embedZero simZero "hello" "text" 10 sampleIndex
     [resultA, resultB] (by with_unfolding_all decide)⟩

/-- Claim C4.  For every search call that returns a result list,
`results[i].score >= results[i+1].score` for every valid index `i`. -/
theorem c4_results_sorted_desc (embed : String → List ℚ) (sim : List ℚ → List ℚ → ℚ)
    (query mode : String) (limit : ℕ) (s : IndexState) (rs : List SearchResult)
    (h : search embed sim query mode limit s = .ok rs) (i : ℕ) (hi : i + 1 < rs.length) :
    (rs.get ⟨i + 1, hi⟩).score ≤ (rs.get ⟨i, Nat.lt_of_succ_lt hi⟩).score := by
  have hp := search_ok_pairwise h
  exact List.pairwise_iff_get.mp hp ⟨i, Nat.lt_of_succ_lt hi⟩ ⟨i + 1, hi⟩
    (by simp [Fin.lt_def])

theorem c4_witness :
    search embedZero simZero "hello" "text" 10 sampleIndex = .ok [resultA, resultB] ∧
    0 + 1 < ([resultA, resultB] : List SearchResult).length ∧
    (([resultA, resultB] : List SearchResult).get ⟨0 + 1, by decide⟩).score ≤
      (([resultA, resultB] : List SearchResult).get ⟨0, by decide⟩).score :=
  ⟨by with_unfolding_all decide, by decide,
   c4_results_sorted_desc embedZero simZero "hello" "text" 10 sampleIndex [resultA, resultB]
     (by with_unfolding_all decide) 0 (by decide)⟩

/-! ## C2: behaviour on the empty query -/

/-- Claim C2 (counterexample).  The claim says an empty query surfaces a
structured `InvalidQuery` error.  In fact a text-mode search with the
empty query on a nonempty initialized index silently returns `ok []` —
no error of any kind is produced. -/
theorem c2_counterexample :
    search embedZero simZero "" "text" 10 sampleIndex = .ok [] := by
  with_unfolding_all decide

/-- Claim C2 (amended).  An empty query is not rejected: on any initialized
index, a text-mode search with the empty query silently returns the empty
result list (no `InvalidQuery` error exists anywhere in the code). -/
theorem c2_empty_query_silent (embed : String → List ℚ) (sim : List ℚ → List ℚ → ℚ)
    (limit : ℕ) (s : IndexState) (hinit : s.inited = true) :
    search embed sim "" "text" limit s = .ok [] := by
  have ht : tokenize "" = [] := by decide
  unfold search searchAccum
  simp [hinit, ht, textResults, docScores, sortResults, List.insertionSort]

theorem c2_witness :
    sampleIndex.inited = true ∧
    search embedZero simZero "" "text" 10 sampleIndex = .ok [] :=
  ⟨rfl, c2_empty_query_silent embedZero simZero 10 sampleIndex rfl⟩

/-! ## C1: bound on lexical scores

`addDocument` only ever pushes a `docId` on a posting list after an
`includes` check, so posting lists are duplicate-free.  Under that
invariant each query token contributes at most 1 to each document's raw
count, so the count is at most the token count and the final score
`count / tokens.length` is at most 1 — also (in fact especially) when
query tokens repeat. -/

/-- Every posting list in the inverted index is duplicate-free. -/
def NodupPostings (ix : List (String × List String)) : Prop :=
  ∀ t l, lookupKey t ix = some l → l.Nodup

theorem foldl_bump_bound (postings : List String) :
    ∀ (m : List (String × ℚ)) (n : ℕ), postings.Nodup →
    (∀ d v, lookupKey d m = some v → v ≤ (n : ℚ) + 1 ∧ (d ∈ postings → v ≤ (n : ℚ))) →
    ∀ d v,
      lookupKey d
        (postings.foldl (fun m docId => setKey docId ((lookupKey docId m).getD 0 + 1) m) m) =
        some v →
      v ≤ (n : ℚ) + 1 := by
  induction postings with
  | nil =>
    intro m n _ hm d v hd
    exact (hm d v hd).1
  | cons p ps ih =>
    intro m n hnd hm d v hd
    have hp : p ∉ ps := (List.nodup_cons.mp hnd).1
    have hps : ps.Nodup := (List.nodup_cons.mp hnd).2
    refine ih (setKey p ((lookupKey p m).getD 0 + 1) m) n hps ?_ d v hd
    intro d' v' hd'
    by_cases hdp : d' = p
    · subst hdp
      rw [lookupKey_setKey_self] at hd'
      have hv' : v' = (lookupKey d' m).getD 0 + 1 := (Option.some_inj.mp hd').symm
      cases hm2 : lookupKey d' m with
      | none =>
        constructor
        · rw [hv', hm2]
          have hnn : (0 : ℚ) ≤ (n : ℚ) := by positivity
          simp only [Option.getD_none, zero_add]
          linarith
        · intro hmem
          exact absurd hmem hp
      | some v0 =>
        have hb := (hm d' v0 hm2).2 (List.mem_cons_self _ _)
        constructor
        · rw [hv', hm2]
          simpa using add_le_add_right hb 1
        · intro hmem
          exact absurd hmem hp
    · rw [lookupKey_setKey_ne _ _ hdp] at hd'
      have := hm d' v' hd'
      exact ⟨this.1, fun hmem => this.2 (List.mem_cons_of_mem p hmem)⟩

theorem scoreToken_bound (s : IndexState) (hN : NodupPostings s.index) (token : String)
    (m : List (String × ℚ)) (n : ℕ)
    (hm : ∀ d v, lookupKey d m = some v → v ≤ (n : ℚ)) :
    ∀ d v, lookupKey d (scoreToken s m token) = some v → v ≤ (n : ℚ) + 1 := by
  have hnd : ((lookupKey token s.index).getD []).Nodup := by
    cases hq : lookupKey token s.index with
    | none => simp
    | some l => simpa using hN token l hq
  refine foldl_bump_bound _ m n hnd ?_
  intro d v hd
  have := hm d v hd
  exact ⟨le_trans this (by linarith), fun _ => this⟩

theorem docScores_fold_bound (s : IndexState) (hN : NodupPostings s.index) :
    ∀ (tokens : List String) (m : List (String × ℚ)) (n : ℕ),
    (∀ d v, lookupKey d m = some v → v ≤ (n : ℚ)) →
    ∀ d v, lookupKey d (tokens.foldl (scoreToken s) m) = some v →
      v ≤ (n : ℚ) + tokens.length := by
  intro tokens
  induction tokens with
  | nil =>
    intro m n hm d v hd
    have := hm d v hd
    simpa using this
  | cons t ts ih =>
    intro m n hm d v hd
    have step : ∀ d v, lookupKey d (scoreToken s m t) = some v → v ≤ ((n + 1 : ℕ) : ℚ) := by
      intro d v hdv
      have := scoreToken_bound s hN t m n hm d v hdv
      push_cast
      exact this
    have := ih (scoreToken s m t) (n + 1) step d v hd
    simp only [List.length_cons] at this ⊢
    push_cast at this ⊢
    linarith

theorem docScores_bound (s : IndexState) (hN : NodupPostings s.index) (tokens : List String)
    (d : String) (v : ℚ) (hd : lookupKey d (docScores s tokens) = some v) :
    v ≤ (tokens.length : ℚ) := by
  have := docScores_fold_bound s hN tokens [] 0 (by intro d v h; simp [lookupKey] at h) d v hd
  simpa using this

/-! Association lists built through `setKey` have duplicate-free keys, so
every list member is what `lookupKey` finds. -/

def KeysNodup {κ α : Type} [DecidableEq κ] (m : List (κ × α)) : Prop :=
  (m.map Prod.fst).Nodup

theorem mem_keys_setKey {κ α : Type} [DecidableEq κ] {x k : κ} (v : α)
    (m : List (κ × α)) (hx : x ∈ (setKey k v m).map Prod.fst) :
    x = k ∨ x ∈ m.map Prod.fst := by
  induction m with
  | nil =>
    simp only [setKey, List.map_cons, List.map_nil, List.mem_singleton] at hx
    exact Or.inl hx
  | cons hd tl ih =>
    obtain ⟨q, w⟩ := hd
    by_cases hq : q = k
    · simp only [setKey, if_pos hq, List.map_cons, List.mem_cons] at hx
      simp only [List.map_cons, List.mem_cons]
      tauto
    · simp only [setKey, if_neg hq, List.map_cons, List.mem_cons] at hx
      simp only [List.map_cons, List.mem_cons]
      rcases hx with h | h
      · exact Or.inr (Or.inl h)
      · rcases ih h with h1 | h1
        · exact Or.inl h1
        · exact Or.inr (Or.inr h1)

theorem keysNodup_setKey {κ α : Type} [DecidableEq κ] (k : κ) (v : α)
    {m : List (κ × α)} (hm : KeysNodup m) : KeysNodup (setKey k v m) := by
  induction m with
  | nil => simp [KeysNodup, setKey]
  | cons hd tl ih =>
    obtain ⟨q, w⟩ := hd
    have hm' : q ∉ tl.map Prod.fst ∧ KeysNodup tl := by
      simpa only [KeysNodup, List.map_cons, List.nodup_cons] using hm
    by_cases hq : q = k
    · simp only [KeysNodup, setKey, if_pos hq, List.map_cons, List.nodup_cons]
      exact hm'
    · have ih' := ih hm'.2
      simp only [KeysNodup, setKey, if_neg hq, List.map_cons, List.nodup_cons]
      refine ⟨?_, ih'⟩
      intro hmem
      rcases mem_keys_setKey v tl hmem with h | h
      · exact hq h
      · exact hm'.1 h

theorem lookupKey_of_mem {κ α : Type} [DecidableEq κ] {k : κ} {v : α}
    {m : List (κ × α)} (hK : KeysNodup m) (hmem : (k, v) ∈ m) :
    lookupKey k m = some v := by
  induction m with
  | nil => cases hmem
  | cons hd tl ih =>
    obtain ⟨q, w⟩ := hd
    have hK' : q ∉ tl.map Prod.fst ∧ KeysNodup tl := by
      simpa only [KeysNodup, List.map_cons, List.nodup_cons] using hK
    rcases List.mem_cons.mp hmem with heq | htl
    · have hk : k = q := congrArg Prod.fst heq
      have hv : v = w := congrArg Prod.snd heq
      simp [lookupKey, hk.symm, hv]
    · have hkmem : k ∈ tl.map Prod.fst := List.mem_map_of_mem Prod.fst htl
      have hqk : q ≠ k := by
        intro h
        rw [h] at hK'
        exact hK'.1 hkmem
      simp only [lookupKey, if_neg hqk]
      exact ih hK'.2 htl

theorem keysNodup_foldl_bump (postings : List String) :
    ∀ m : List (String × ℚ), KeysNodup m →
    KeysNodup
      (postings.foldl (fun m docId => setKey docId ((lookupKey docId m).getD 0 + 1) m) m) := by
  induction postings with
  | nil => intro m hm; exact hm
  | cons p ps ih =>
    intro m hm
    exact ih _ (keysNodup_setKey _ _ hm)

theorem keysNodup_docScores_fold (s : IndexState) :
    ∀ (tokens : List String) (m : List (String × ℚ)), KeysNodup m →
    KeysNodup (tokens.foldl (scoreToken s) m) := by
  intro tokens
  induction tokens with
  | nil => intro m hm; exact hm
  | cons t ts ih =>
    intro m hm
    exact ih _ (keysNodup_foldl_bump _ m hm)

theorem keysNodup_docScores (s : IndexState) (tokens : List String) :
    KeysNodup (docScores s tokens) :=
  keysNodup_docScores_fold s tokens [] (by simp [KeysNodup])

theorem textResults_fold_bound (s : IndexState) (len : ℚ) :
    ∀ (entries : List (String × ℚ)) (acc : List SearchResult),
    (∀ r ∈ acc, r.score ≤ 1) → (∀ kv ∈ entries, kv.2 / len ≤ 1) →
    ∀ r ∈ entries.foldl
        (fun rs kv =>
          match lookupKey kv.1 s.documents with
          | some doc =>
              rs ++ [⟨doc.url, doc.title, snippet doc.content, kv.2 / len, doc.timestamp⟩]
          | none => rs)
        acc,
      r.score ≤ 1 := by
  intro entries
  induction entries with
  | nil => intro acc hacc _ r hr; exact hacc r hr
  | cons kv es ih =>
    intro acc hacc hent r hr
    refine ih _ ?_ (fun kv' h => hent kv' (List.mem_cons_of_mem _ h)) r hr
    cases hdoc : lookupKey kv.1 s.documents with
    | none => simpa [hdoc] using hacc
    | some doc =>
      intro r' hr'
      simp only [hdoc] at hr'
      rcases List.mem_append.mp hr' with h | h
      · exact hacc r' h
      · have : r' = ⟨doc.url, doc.title, snippet doc.content, kv.2 / len, doc.timestamp⟩ := by
          simpa using h
        rw [this]
        exact hent kv (List.mem_cons_self _ _)

theorem textResults_score_le_one (s : IndexState) (tokens : List String)
    (hN : NodupPostings s.index) :
    ∀ r ∈ textResults s tokens, r.score ≤ 1 := by
  cases htok : tokens with
  | nil =>
    intro r hr
    simp [textResults, docScores, List.foldl] at hr
  | cons t ts =>
    intro r hr
    rw [← htok] at hr
    have hlen : (0 : ℚ) < tokens.length := by
      rw [htok]
      simp only [List.length_cons]
      exact_mod_cast Nat.succ_pos ts.length
    refine textResults_fold_bound s (tokens.length : ℚ) (docScores s tokens) [] (by simp) ?_ r hr
    intro kv hkv
    have hlk := lookupKey_of_mem (keysNodup_docScores s tokens) hkv
    have hb := docScores_bound s hN tokens kv.1 kv.2 hlk
    rw [div_le_one hlen]
    exact hb

theorem searchText_score_le_one {embed : String → List ℚ} {sim : List ℚ → List ℚ → ℚ}
    {q : String} {limit : ℕ} {s : IndexState} {rs : List SearchResult}
    (hN : NodupPostings s.index)
    (h : search embed sim q "text" limit s = .ok rs) :
    ∀ r ∈ rs, r.score ≤ 1 := by
  have hacc : searchAccum embed sim q "text" s = .ok (textResults s (tokenize q)) := by
    simp [searchAccum]
  unfold search at h
  by_cases hinit : s.inited = false
  · rw [if_pos hinit] at h
    exact absurd h (by simp)
  · rw [if_neg hinit, hacc] at h
    have hrs : rs = (sortResults (textResults s (tokenize q))).take limit := by
      simpa using h.symm
    subst hrs
    intro r hr
    have h1 : r ∈ sortResults (textResults s (tokenize q)) :=
      (List.take_sublist _ _).subset hr
    have h2 : r ∈ textResults s (tokenize q) := by
      simpa [sortResults] using h1
    exact textResults_score_le_one s (tokenize q) hN r h2

/-- Claim C1 (counterexample, proving the claim's negation).  No text-mode
search over an index whose posting lists are duplicate-free (the invariant
`addDocument` maintains, see `addDocument_nodupPostings`) ever assigns a
score above 1 — in particular not for a query with repeated tokens. -/
theorem c1_counterexample :
    ¬ ∃ (embed : String → List ℚ) (sim : List ℚ → List ℚ → ℚ) (q : String) (limit : ℕ)
        (s : IndexState) (rs : List SearchResult) (r : SearchResult),
        NodupPostings s.index ∧ ¬ (tokenize q).Nodup ∧
        search embed sim q "text" limit s = .ok rs ∧ r ∈ rs ∧ 1 < r.score := by
  rintro ⟨embed, sim, q, limit, s, rs, r, hN, _, h, hr, hgt⟩
  exact absurd (searchText_score_le_one hN h r hr) (not_le.mpr hgt)

/-- Claim C1 (amended).  Lexical (text-mode) scores are bounded by 1 for
every index whose posting lists are duplicate-free — the invariant
`addDocument` establishes — regardless of repeated query tokens: each
repeated token inflates the numerator and the denominator alike. -/
theorem c1_lexical_score_bounded (embed : String → List ℚ) (sim : List ℚ → List ℚ → ℚ)
    (q : String) (limit : ℕ) (s : IndexState) (rs : List SearchResult)
    (hN : NodupPostings s.index)
    (h : search embed sim q "text" limit s = .ok rs) :
    ∀ r ∈ rs, r.score ≤ 1 :=
  searchText_score_le_one hN h

theorem c1_witness :
    NodupPostings sampleIndex.index ∧
    search embedZero simZero "hello hello" "text" 10 sampleIndex = .ok [resultA, resultB] ∧
    (∀ r ∈ [resultA, resultB], r.score ≤ 1) := by
  have hN : NodupPostings sampleIndex.index := by
    intro t l hl
    by_cases ht : ("hello" : String) = t
    · have : some ["a.com", "b.com"] = some l := by
        simpa [sampleIndex, lookupKey, ht] using hl
      have hll : l = ["a.com", "b.com"] := (Option.some_inj.mp this).symm
      rw [hll]
      decide
    · simp [sampleIndex, lookupKey, ht] at hl
  refine ⟨hN, by with_unfolding_all decide, ?_⟩
  exact c1_lexical_score_bounded embedZero simZero "hello hello" 10 sampleIndex
    [resultA, resultB] hN (by with_unfolding_all decide)

/-! ## C5: adding the same document twice -/

/-- Membership of `docId` on the posting list of `t`. -/
def MemPosting (docId t : String) (ix : List (String × List String)) : Prop :=
  docId ∈ (lookupKey t ix).getD []

instance (docId t : String) (ix : List (String × List String)) :
    Decidable (MemPosting docId t ix) :=
  inferInstanceAs (Decidable (docId ∈ (lookupKey t ix).getD []))

theorem indexToken_adds (docId : String) (ix : List (String × List String)) (token : String) :
    MemPosting docId token (indexToken docId ix token) := by
  unfold indexToken MemPosting
  by_cases hmem : docId ∈ (lookupKey token ix).getD []
  · rw [if_pos hmem]
    exact hmem
  · rw [if_neg hmem, lookupKey_setKey_self]
    simp

theorem indexToken_keeps {docId tk : String} {ix : List (String × List String)}
    (token : String) (h : MemPosting docId tk ix) :
    MemPosting docId tk (indexToken docId ix token) := by
  unfold indexToken
  by_cases hmem : docId ∈ (lookupKey token ix).getD []
  · simpa [hmem] using h
  · by_cases htk : tk = token
    · subst htk
      exact absurd h hmem
    · unfold MemPosting
      rw [if_neg hmem, lookupKey_setKey_ne _ _ htk]
      exact h

theorem foldl_indexToken_keeps {docId tk : String} (tokens : List String) :
    ∀ ix, MemPosting docId tk ix →
    MemPosting docId tk (tokens.foldl (indexToken docId) ix) := by
  induction tokens with
  | nil => intro ix h; exact h
  | cons t ts ih => intro ix h; exact ih _ (indexToken_keeps t h)

theorem foldl_indexToken_mem (docId : String) (tokens : List String) :
    ∀ ix tk, tk ∈ tokens →
    MemPosting docId tk (tokens.foldl (indexToken docId) ix) := by
  induction tokens with
  | nil => intro ix tk h; cases h
  | cons t ts ih =>
    intro ix tk htk
    rcases List.mem_cons.mp htk with h | h
    · subst h
      exact foldl_indexToken_keeps ts _ (indexToken_adds docId ix tk)
    · exact ih _ tk h

theorem indexToken_noop {docId token : String} {ix : List (String × List String)}
    (h : MemPosting docId token ix) : indexToken docId ix token = ix := by
  unfold indexToken
  exact if_pos h

theorem foldl_indexToken_noop {docId : String} (tokens : List String)
    (ix : List (String × List String)) (h : ∀ tk ∈ tokens, MemPosting docId tk ix) :
    tokens.foldl (indexToken docId) ix = ix := by
  induction tokens with
  | nil => rfl
  | cons t ts ih =>
    have hnoop := indexToken_noop (h t (List.mem_cons_self _ _))
    calc (t :: ts).foldl (indexToken docId) ix
        = ts.foldl (indexToken docId) (indexToken docId ix t) := rfl
      _ = ts.foldl (indexToken docId) ix := by rw [hnoop]
      _ = ix := ih fun tk htk => h tk (List.mem_cons_of_mem _ htk)

theorem nodup_append_singleton {α : Type} {l : List α} {a : α}
    (h : l.Nodup) (ha : a ∉ l) : (l ++ [a]).Nodup := by
  simp only [List.nodup_append, List.nodup_singleton, true_and]
  refine ⟨h, ?_⟩
  intro x hx
  simp only [List.mem_singleton]
  intro hxa
  exact ha (hxa ▸ hx)

theorem indexToken_nodupPostings {docId : String} {ix : List (String × List String)}
    (token : String) (hN : NodupPostings ix) : NodupPostings (indexToken docId ix token) := by
  unfold indexToken
  by_cases hmem : docId ∈ (lookupKey token ix).getD []
  · rw [if_pos hmem]
    exact hN
  · rw [if_neg hmem]
    intro t l hl
    by_cases ht : t = token
    · subst ht
      rw [lookupKey_setKey_self] at hl
      have hll : l = (lookupKey t ix).getD [] ++ [docId] := (Option.some_inj.mp hl).symm
      rw [hll]
      refine nodup_append_singleton ?_ hmem
      cases hq : lookupKey t ix with
      | none => simp
      | some l0 => simpa using hN t l0 hq
    · rw [lookupKey_setKey_ne _ _ ht] at hl
      exact hN t l hl

theorem foldl_indexToken_nodupPostings {docId : String} (tokens : List String) :
    ∀ ix, NodupPostings ix →
    NodupPostings (tokens.foldl (indexToken docId) ix) := by
  induction tokens with
  | nil => intro ix h; exact h
  | cons t ts ih => intro ix h; exact ih _ (indexToken_nodupPostings t h)

/-- Function `addDocument` preserves duplicate-freeness of all posting lists, so
every state reachable from the initial (empty) index satisfies
`NodupPostings` — the hypothesis under which the C1 bound holds. -/
theorem addDocument_nodupPostings {embed : String → List ℚ} {now : ℕ}
    {url content title : String} {s s' : IndexState}
    (hN : NodupPostings s.index)
    (h : addDocument embed now url content title s = .ok s') :
    NodupPostings s'.index := by
  unfold addDocument at h
  by_cases hinit : s.inited = false
  · rw [if_pos hinit] at h
    exact absurd h (by simp)
  · rw [if_neg hinit] at h
    have hs' :
        s' = { s with
          index := (tokenize (content ++ " " ++ title)).foldl
            (indexToken (normalizeUrl url)) s.index
          documents := setKey (normalizeUrl url) ⟨url, title, content, now⟩ s.documents
          embeddings := setKey (normalizeUrl url) (embed content) s.embeddings } := by
      simpa using h.symm
    subst hs'
    exact foldl_indexToken_nodupPostings _ _ hN

/-- Claim C5 (counterexample).  Adding the same document twice is *not* a
state-level no-op: `Date.now()` has advanced, so the stored document's
timestamp is overwritten and the resulting `documents` map differs. -/
theorem c5_counterexample :
    (addDocument embedZero 0 "u" "c" "t" ⟨[], [], [], true⟩).bind
        (addDocument embedZero 1 "u" "c" "t") ≠
      addDocument embedZero 0 "u" "c" "t" ⟨[], [], [], true⟩ := by
  with_unfolding_all decide

/-- Claim C5 (amended).  Re-adding the same document leaves the inverted
index (no duplicate postings) and the embeddings map (no duplicate
entries) unchanged; the documents map is unchanged except that the
document's stored timestamp is refreshed to the second call's clock; when
the two calls observe the same clock the entire state is identical. -/
theorem c5_add_document_idempotent (embed : String → List ℚ) (now now2 : ℕ)
    (url content title : String) (s s1 : IndexState)
    (h : addDocument embed now url content title s = .ok s1) :
    ∃ s2, addDocument embed now2 url content title s1 = .ok s2 ∧
      s2.index = s1.index ∧
      s2.embeddings = s1.embeddings ∧
      s2.documents = setKey (normalizeUrl url) ⟨url, title, content, now2⟩ s1.documents ∧
      (now2 = now → s2 = s1) := by
  unfold addDocument at h ⊢
  by_cases hinit : s.inited = false
  · rw [if_pos hinit] at h
    exact absurd h (by simp)
  · rw [if_neg hinit] at h
    have hs1 :
        s1 = { s with
          index := (tokenize (content ++ " " ++ title)).foldl
            (indexToken (normalizeUrl url)) s.index
          documents := setKey (normalizeUrl url) ⟨url, title, content, now⟩ s.documents
          embeddings := setKey (normalizeUrl url) (embed content) s.embeddings } := by
      simpa using h.symm
    have hinit1 : s1.inited = s.inited := by rw [hs1]
    rw [if_neg (by rw [hinit1]; exact hinit)]
    refine ⟨_, rfl, ?_, ?_, rfl, ?_⟩
    · show (tokenize (content ++ " " ++ title)).foldl (indexToken (normalizeUrl url)) s1.index
        = s1.index
      refine foldl_indexToken_noop _ _ ?_
      intro tk htk
      rw [hs1]
      exact foldl_indexToken_mem _ _ s.index tk htk
    · show setKey (normalizeUrl url) (embed content) s1.embeddings = s1.embeddings
      rw [hs1]
      exact setKey_setKey_same _ _ _ s.embeddings
    · intro hnow
      subst hnow
      have h1 : (tokenize (content ++ " " ++ title)).foldl (indexToken (normalizeUrl url))
          s1.index = s1.index := by
        refine foldl_indexToken_noop _ _ ?_
        intro tk htk
        rw [hs1]
        exact foldl_indexToken_mem _ _ s.index tk htk
      have h2 : setKey (normalizeUrl url) ⟨url, title, content, now2⟩ s1.documents
          = s1.documents := by
        rw [hs1]
        exact setKey_setKey_same _ _ _ s.documents
      have h3 : setKey (normalizeUrl url) (embed content) s1.embeddings = s1.embeddings := by
        rw [hs1]
        exact setKey_setKey_same _ _ _ s.embeddings
      simp only [h1, h2, h3]

theorem c5_witness :
    addDocument embedZero 0 "u" "c" "t" ⟨[], [], [], true⟩ =
      .ok ⟨[], [("u", ⟨"u", "t", "c", 0⟩)], [("u", [])], true⟩ ∧
    ∃ s2, addDocument embedZero 1 "u" "c" "t"
        (⟨[], [("u", ⟨"u", "t", "c", 0⟩)], [("u", [])], true⟩ : IndexState) = .ok s2 ∧
      s2.index = ([] : List (String × List String)) ∧
      s2.embeddings = [("u", [])] ∧
      s2.documents = setKey (normalizeUrl "u") ⟨"u", "t", "c", 1⟩
        [("u", ⟨"u", "t", "c", 0⟩)] ∧
      ((1 : ℕ) = 0 → s2 = ⟨[], [("u", ⟨"u", "t", "c", 0⟩)], [("u", [])], true⟩) :=
  ⟨by with_unfolding_all decide,
   c5_add_document_idempotent embedZero 0 1 "u" "c" "t" ⟨[], [], [], true⟩
     ⟨[], [("u", ⟨"u", "t", "c", 0⟩)], [("u", [])], true⟩ (by with_unfolding_all decide)⟩

/-! ## C6: attention aggregation commutes -/

/-- Accumulated `timeVisible` stored for one element path of one tab. -/
def tabPathTime (tabId : ℕ) (p : String) (ints : List (ℕ × TabData)) : Option ℚ :=
  (lookupKey tabId ints).bind fun td => (lookupKey p td.viewportData).map (·.timeVisible)

/-- Stored `visibilityPercentage` for one element path of one tab. -/
def tabPathVis (tabId : ℕ) (p : String) (ints : List (ℕ × TabData)) : Option ℚ :=
  (lookupKey tabId ints).bind fun td =>
    (lookupKey p td.viewportData).map (·.visibilityPercentage)

/-- Claim C6.  For any two telemetry reports `d1`, `d2` on the same element
path (with nonnegative `timeVisible`), aggregating `d1` then `d2` gives
the same accumulated `timeVisible` total and the same stored
`visibilityPercentage` maximum as aggregating `d2` then `d1`. -/
theorem c6_aggregation_commutes (st : List (ℕ × TabData)) (tabId : ℕ) (path : String)
    (d1 d2 : VPData) (cursor scroll : ℚ) (now : ℕ)
    (_h1 : 0 ≤ d1.timeVisible) (_h2 : 0 ≤ d2.timeVisible) :
    tabPathTime tabId path
        (updateInteractionData tabId [(path, d2)] cursor scroll now
          (updateInteractionData tabId [(path, d1)] cursor scroll now st)) =
      tabPathTime tabId path
        (updateInteractionData tabId [(path, d1)] cursor scroll now
          (updateInteractionData tabId [(path, d2)] cursor scroll now st)) ∧
    tabPathVis tabId path
        (updateInteractionData tabId [(path, d2)] cursor scroll now
          (updateInteractionData tabId [(path, d1)] cursor scroll now st)) =
      tabPathVis tabId path
        (updateInteractionData tabId [(path, d1)] cursor scroll now
          (updateInteractionData tabId [(path, d2)] cursor scroll now st)) := by
  constructor
  · cases htab : lookupKey tabId st with
    | none =>
      simp [tabPathTime, updateInteractionData, mergeViewport, mergeOne, htab,
        lookupKey_setKey_self, lookupKey, setKey, add_comm]
    | some td =>
      cases hpath : lookupKey path td.viewportData with
      | none =>
        simp [tabPathTime, updateInteractionData, mergeViewport, mergeOne, htab, hpath,
          lookupKey_setKey_self, lookupKey, setKey, add_comm]
      | some d0 =>
        simp [tabPathTime, updateInteractionData, mergeViewport, mergeOne, htab, hpath,
          lookupKey_setKey_self, lookupKey, setKey, add_comm, add_left_comm, add_assoc]
  · cases htab : lookupKey tabId st with
    | none =>
      simp [tabPathVis, updateInteractionData, mergeViewport, mergeOne, htab,
        lookupKey_setKey_self, lookupKey, setKey, max_comm]
    | some td =>
      cases hpath : lookupKey path td.viewportData with
      | none =>
        simp [tabPathVis, updateInteractionData, mergeViewport, mergeOne, htab, hpath,
          lookupKey_setKey_self, lookupKey, setKey, max_comm]
      | some d0 =>
        simp [tabPathVis, updateInteractionData, mergeViewport, mergeOne, htab, hpath,
          lookupKey_setKey_self, lookupKey, setKey, max_comm, max_left_comm, max_assoc]

theorem c6_witness :
    (0 : ℚ) ≤ (⟨3, 40, "p"⟩ : VPData).timeVisible ∧
    (0 : ℚ) ≤ (⟨5, 70, "p"⟩ : VPData).timeVisible ∧
    (tabPathTime 1 "p"
        (updateInteractionData 1 [("p", ⟨5, 70, "p"⟩)] 0 0 0
          (updateInteractionData 1 [("p", ⟨3, 40, "p"⟩)] 0 0 0 [])) =
      tabPathTime 1 "p"
        (updateInteractionData 1 [("p", ⟨3, 40, "p"⟩)] 0 0 0
          (updateInteractionData 1 [("p", ⟨5, 70, "p"⟩)] 0 0 0 [])) ∧
    tabPathVis 1 "p"
        (updateInteractionData 1 [("p", ⟨5, 70, "p"⟩)] 0 0 0
          (updateInteractionData 1 [("p", ⟨3, 40, "p"⟩)] 0 0 0 [])) =
      tabPathVis 1 "p"
        (updateInteractionData 1 [("p", ⟨3, 40, "p"⟩)] 0 0 0
          (updateInteractionData 1 [("p", ⟨5, 70, "p"⟩)] 0 0 0 []))) :=
  ⟨by norm_num, by norm_num,
   c6_aggregation_commutes [] 1 "p" ⟨3, 40, "p"⟩ ⟨5, 70, "p"⟩ 0 0 0
     (by norm_num) (by norm_num)⟩

/-! ## C7: the A→B→A→B journey scenario -/

/-- Claim C7 (counterexample).  With the distinct urls `A = "x_x"` and
`B = "x"`, the template-string edge keys `A_B` and `B_A` collide (both are
`"x_x_x"`), so after A→B→A→B the looked-up (A,B) edge carries *3*
traversals, not the claimed 2. -/
theorem c7_counterexample :
    (("x_x" : String) ≠ "x") ∧
    (lookupKey ("x_x" ++ "_" ++ "x")
        (trackVisit "x" "TB" "4" "4" (trackVisit "x_x" "TA" "3" "3"
          (trackVisit "x" "TB" "2" "2" (trackVisit "x_x" "TA" "1" "1"
            ⟨[], [], none, none⟩)))).edges).map (·.traversals) = some 3 ∧
    (lookupKey ("x_x" ++ "_" ++ "x")
        (trackVisit "x" "TB" "4" "4" (trackVisit "x_x" "TA" "3" "3"
          (trackVisit "x" "TB" "2" "2" (trackVisit "x_x" "TA" "1" "1"
            ⟨[], [], none, none⟩)))).edges).map (·.traversals) ≠ some 2 := by
  refine ⟨by decide, by with_unfolding_all decide, by with_unfolding_all decide⟩

/-- Claim C7 (amended).  After visiting A→B→A→B from an empty journey with
distinct *nonempty* urls whose composite keys `A_B` and `B_A` do not
collide, the (A,B) edge has 2 traversals, the (B,A) edge has 1, and node A
has `visitCount` 2.  (Nonemptiness is forced by the JS truthiness check on
`this.current`; key distinctness is forced by the template-string edge
keys, see `c7_counterexample`.) -/
theorem c7_journey_counters (A B titleA titleB t1 n1 t2 n2 t3 n3 t4 n4 : String)
    (hAB : A ≠ B) (hA : A ≠ "") (hB : B ≠ "")
    (hkey : A ++ "_" ++ B ≠ B ++ "_" ++ A) :
    (lookupKey (A ++ "_" ++ B)
        (trackVisit B titleB t4 n4 (trackVisit A titleA t3 n3
          (trackVisit B titleB t2 n2 (trackVisit A titleA t1 n1
            ⟨[], [], none, none⟩)))).edges).map (·.traversals) = some 2 ∧
    (lookupKey (B ++ "_" ++ A)
        (trackVisit B titleB t4 n4 (trackVisit A titleA t3 n3
          (trackVisit B titleB t2 n2 (trackVisit A titleA t1 n1
            ⟨[], [], none, none⟩)))).edges).map (·.traversals) = some 1 ∧
    (lookupKey A
        (trackVisit B titleB t4 n4 (trackVisit A titleA t3 n3
          (trackVisit B titleB t2 n2 (trackVisit A titleA t1 n1
            ⟨[], [], none, none⟩)))).nodes).map (·.visitCount) = some 2 := by
  have hBA : B ≠ A := Ne.symm hAB
  have hkey2 : B ++ "_" ++ A ≠ A ++ "_" ++ B := Ne.symm hkey
  refine ⟨?_, ?_, ?_⟩ <;>
    simp [trackVisit, visitEdges, setKey, lookupKey, hAB, hBA, hA, hB, hkey, hkey2]

theorem c7_witness :
    (("a" : String) ≠ "b") ∧ (("a" : String) ≠ "") ∧ (("b" : String) ≠ "") ∧
    ("a" ++ "_" ++ "b" ≠ "b" ++ "_" ++ "a") ∧
    ((lookupKey ("a" ++ "_" ++ "b")
        (trackVisit "b" "TB" "4" "4" (trackVisit "a" "TA" "3" "3"
          (trackVisit "b" "TB" "2" "2" (trackVisit "a" "TA" "1" "1"
            ⟨[], [], none, none⟩)))).edges).map (·.traversals) = some 2 ∧
    (lookupKey ("b" ++ "_" ++ "a")
        (trackVisit "b" "TB" "4" "4" (trackVisit "a" "TA" "3" "3"
          (trackVisit "b" "TB" "2" "2" (trackVisit "a" "TA" "1" "1"
            ⟨[], [], none, none⟩)))).edges).map (·.traversals) = some 1 ∧
    (lookupKey "a"
        (trackVisit "b" "TB" "4" "4" (trackVisit "a" "TA" "3" "3"
          (trackVisit "b" "TB" "2" "2" (trackVisit "a" "TA" "1" "1"
            ⟨[], [], none, none⟩)))).nodes).map (·.visitCount) = some 2) :=
  ⟨by decide, by decide, by decide, by decide,
   c7_journey_counters "a" "b" "TA" "TB" "1" "1" "2" "2" "3" "3" "4" "4"
     (by decide) (by decide) (by decide) (by decide)⟩

/-! ## C8: monotonicity of all counters -/

theorem optionMono_refl {α : Type} [Preorder α] (a : Option α) : optionMono a a :=
  fun v h => ⟨v, h, le_refl v⟩

theorem optionMono_trans {α : Type} [Preorder α] {a b c : Option α}
    (h1 : optionMono a b) (h2 : optionMono b c) : optionMono a c := by
  intro v hv
  obtain ⟨w, hw, hvw⟩ := h1 v hv
  obtain ⟨x, hx, hwx⟩ := h2 w hw
  exact ⟨x, hx, le_trans hvw hwx⟩

theorem lookupKey_map_setKey {κ α β : Type} [DecidableEq κ] (f : α → β) (k : κ) (v' : α)
    (m : List (κ × α)) (u : κ) :
    (lookupKey u (setKey k v' m)).map f =
      if u = k then some (f v') else (lookupKey u m).map f := by
  by_cases hu : u = k
  · subst hu
    rw [lookupKey_setKey_self, if_pos rfl]
    rfl
  · rw [lookupKey_setKey_ne _ _ hu, if_neg hu]

theorem trackVisit_nodes_eq (url title ts nowIso : String) (j : JourneyState) :
    (trackVisit url title ts nowIso j).nodes =
      setKey url
        ⟨url, title, if ts = "" then nowIso else ts,
          ((lookupKey url j.nodes).map (·.visitCount)).getD 0 + 1⟩ j.nodes := rfl

theorem trackVisit_edges_eq (url title ts nowIso : String) (j : JourneyState) :
    (trackVisit url title ts nowIso j).edges =
      match j.current with
      | none => j.edges
      | some cur => visitEdges cur url (if ts = "" then nowIso else ts) j.edges := rfl

theorem trackVisit_nodeMono (url title ts nowIso u : String) (j : JourneyState) :
    optionMono ((lookupKey u j.nodes).map (·.visitCount))
      ((lookupKey u (trackVisit url title ts nowIso j).nodes).map (·.visitCount)) := by
  intro v hv
  rw [trackVisit_nodes_eq, lookupKey_map_setKey]
  by_cases hu : u = url
  · rw [if_pos hu]
    refine ⟨_, rfl, ?_⟩
    show v ≤ ((lookupKey url j.nodes).map (·.visitCount)).getD 0 + 1
    rw [← hu, hv]
    simp
  · rw [if_neg hu]
    exact ⟨v, hv, le_refl v⟩

theorem visitEdges_mono (cur url stamp k : String) (edges : List (String × JourneyEdge)) :
    optionMono ((lookupKey k edges).map (·.traversals))
      ((lookupKey k (visitEdges cur url stamp edges)).map (·.traversals)) := by
  intro v hv
  unfold visitEdges
  by_cases hc : cur ≠ "" ∧ cur ≠ url
  · rw [if_pos hc]
    cases hk : lookupKey (cur ++ "_" ++ url) edges with
    | none =>
      simp only [hk]
      rw [lookupKey_map_setKey]
      by_cases hkk : k = cur ++ "_" ++ url
      · exfalso
        rw [hkk, hk] at hv
        simp at hv
      · rw [if_neg hkk]
        exact ⟨v, hv, le_refl v⟩
    | some e =>
      simp only [hk]
      rw [lookupKey_map_setKey]
      by_cases hkk : k = cur ++ "_" ++ url
      · rw [if_pos hkk]
        refine ⟨e.traversals + 1, rfl, ?_⟩
        rw [hkk, hk] at hv
        have hve : v = e.traversals := by simpa using hv.symm
        rw [hve]
        exact Nat.le_succ _
      · rw [if_neg hkk]
        exact ⟨v, hv, le_refl v⟩
  · rw [if_neg hc]
    exact ⟨v, hv, le_refl v⟩

theorem trackVisit_edgeMono (url title ts nowIso k : String) (j : JourneyState) :
    optionMono ((lookupKey k j.edges).map (·.traversals))
      ((lookupKey k (trackVisit url title ts nowIso j).edges).map (·.traversals)) := by
  rw [trackVisit_edges_eq]
  cases j.current with
  | none => exact optionMono_refl _
  | some cur => exact visitEdges_mono cur url _ k j.edges

theorem mergeOne_time_mono (vd : List (String × VPData)) (kv : String × VPData)
    (p : String) (hkv : 0 ≤ kv.2.timeVisible) :
    optionMono ((lookupKey p vd).map (·.timeVisible))
      ((lookupKey p (mergeOne vd kv)).map (·.timeVisible)) := by
  intro v hv
  unfold mergeOne
  cases hk : lookupKey kv.1 vd with
  | none =>
    rw [lookupKey_map_setKey]
    by_cases hp : p = kv.1
    · exfalso
      rw [hp, hk] at hv
      simp at hv
    · rw [if_neg hp]
      exact ⟨v, hv, le_refl v⟩
  | some d =>
    rw [lookupKey_map_setKey]
    by_cases hp : p = kv.1
    · rw [if_pos hp]
      rw [hp, hk] at hv
      have hvd : v = d.timeVisible := by simpa using hv.symm
      refine ⟨d.timeVisible + kv.2.timeVisible, rfl, ?_⟩
      rw [hvd]
      linarith
    · rw [if_neg hp]
      exact ⟨v, hv, le_refl v⟩

theorem mergeOne_vis_mono (vd : List (String × VPData)) (kv : String × VPData)
    (p : String) :
    optionMono ((lookupKey p vd).map (·.visibilityPercentage))
      ((lookupKey p (mergeOne vd kv)).map (·.visibilityPercentage)) := by
  intro v hv
  unfold mergeOne
  cases hk : lookupKey kv.1 vd with
  | none =>
    rw [lookupKey_map_setKey]
    by_cases hp : p = kv.1
    · exfalso
      rw [hp, hk] at hv
      simp at hv
    · rw [if_neg hp]
      exact ⟨v, hv, le_refl v⟩
  | some d =>
    rw [lookupKey_map_setKey]
    by_cases hp : p = kv.1
    · rw [if_pos hp]
      rw [hp, hk] at hv
      have hvd : v = d.visibilityPercentage := by simpa using hv.symm
      refine ⟨max d.visibilityPercentage kv.2.visibilityPercentage, rfl, ?_⟩
      rw [hvd]
      exact le_max_left _ _
    · rw [if_neg hp]
      exact ⟨v, hv, le_refl v⟩

theorem mergeViewport_time_mono (reported : List (String × VPData)) :
    ∀ vd, (∀ kv ∈ reported, 0 ≤ kv.2.timeVisible) → ∀ p,
    optionMono ((lookupKey p vd).map (·.timeVisible))
      ((lookupKey p (mergeViewport vd reported)).map (·.timeVisible)) := by
  induction reported with
  | nil => intro vd _ p; exact optionMono_refl _
  | cons kv rest ih =>
    intro vd hrep p
    have h1 := mergeOne_time_mono vd kv p (hrep kv (List.mem_cons_self _ _))
    have h2 := ih (mergeOne vd kv) (fun kv' h => hrep kv' (List.mem_cons_of_mem _ h)) p
    exact optionMono_trans h1 h2

theorem mergeViewport_vis_mono (reported : List (String × VPData)) :
    ∀ vd p,
    optionMono ((lookupKey p vd).map (·.visibilityPercentage))
      ((lookupKey p (mergeViewport vd reported)).map (·.visibilityPercentage)) := by
  induction reported with
  | nil => intro vd p; exact optionMono_refl _
  | cons kv rest ih =>
    intro vd p
    exact optionMono_trans (mergeOne_vis_mono vd kv p) (ih (mergeOne vd kv) p)

theorem lookupTab_upd (tabId : ℕ) (reported : List (String × VPData))
    (cursor scroll : ℚ) (now : ℕ) (st : List (ℕ × TabData)) (tab : ℕ) :
    lookupKey tab (updateInteractionData tabId reported cursor scroll now st) =
      if tab = tabId then
        some
          (let cur := (lookupKey tabId st).getD ⟨[], 0, 0, now⟩
          let d1 := { cur with viewportData := mergeViewport cur.viewportData reported }
          let d2 := { d1 with
            cursorMovement :=
              if cursor ≠ 0 then d1.cursorMovement + cursor else d1.cursorMovement }
          { d2 with
            scrollEvents :=
              if scroll ≠ 0 then d2.scrollEvents + scroll else d2.scrollEvents })
      else lookupKey tab st := by
  unfold updateInteractionData
  by_cases htab : tab = tabId
  · subst htab
    rw [lookupKey_setKey_self, if_pos rfl]
  · rw [lookupKey_setKey_ne _ _ htab, if_neg htab]

theorem upd_time_mono (tabId : ℕ) (reported : List (String × VPData))
    (cursor scroll : ℚ) (now : ℕ) (st : List (ℕ × TabData)) (tab : ℕ) (p : String)
    (hrep : ∀ kv ∈ reported, 0 ≤ kv.2.timeVisible) :
    optionMono (tabPathTime tab p st)
      (tabPathTime tab p (updateInteractionData tabId reported cursor scroll now st)) := by
  intro v hv
  unfold tabPathTime at hv ⊢
  rw [lookupTab_upd]
  by_cases htab : tab = tabId
  · rw [if_pos htab]
    rw [htab] at hv
    obtain ⟨td, htd, hvp⟩ := Option.bind_eq_some.mp hv
    obtain ⟨w, hw, hvw⟩ := mergeViewport_time_mono reported td.viewportData hrep p v hvp
    refine ⟨w, ?_, hvw⟩
    show (lookupKey p (mergeViewport ((lookupKey tabId st).getD ⟨[], 0, 0, now⟩).viewportData
        reported)).map (·.timeVisible) = some w
    rw [htd]
    exact hw
  · rw [if_neg htab]
    exact ⟨v, hv, le_refl v⟩

theorem upd_vis_mono (tabId : ℕ) (reported : List (String × VPData))
    (cursor scroll : ℚ) (now : ℕ) (st : List (ℕ × TabData)) (tab : ℕ) (p : String) :
    optionMono (tabPathVis tab p st)
      (tabPathVis tab p (updateInteractionData tabId reported cursor scroll now st)) := by
  intro v hv
  unfold tabPathVis at hv ⊢
  rw [lookupTab_upd]
  by_cases htab : tab = tabId
  · rw [if_pos htab]
    rw [htab] at hv
    obtain ⟨td, htd, hvp⟩ := Option.bind_eq_some.mp hv
    obtain ⟨w, hw, hvw⟩ := mergeViewport_vis_mono reported td.viewportData p v hvp
    refine ⟨w, ?_, hvw⟩
    show (lookupKey p (mergeViewport ((lookupKey tabId st).getD ⟨[], 0, 0, now⟩).viewportData
        reported)).map (·.visibilityPercentage) = some w
    rw [htd]
    exact hw
  · rw [if_neg htab]
    exact ⟨v, hv, le_refl v⟩

/-- All four monotonicity statements, for a single operation. -/
theorem stepOp_mono (op : Op) (st : SystemState) (hop : validOp op = true) :
    (∀ u, optionMono (nodeVisitCount u st) (nodeVisitCount u (stepOp st op))) ∧
    (∀ k, optionMono (edgeTraversals k st) (edgeTraversals k (stepOp st op))) ∧
    (∀ tab p, optionMono (pathTimeVisible tab p st) (pathTimeVisible tab p (stepOp st op))) ∧
    (∀ tab p, optionMono (pathVisibility tab p st) (pathVisibility tab p (stepOp st op))) := by
  cases op with
  | visit url title ts nowIso =>
    refine ⟨fun u => ?_, fun k => ?_, fun tab p => ?_, fun tab p => ?_⟩
    · exact trackVisit_nodeMono url title ts nowIso u st.journey
    · exact trackVisit_edgeMono url title ts nowIso k st.journey
    · exact optionMono_refl _
    · exact optionMono_refl _
  | report tabId reported cursor scroll now =>
    have hrep : ∀ kv ∈ reported, 0 ≤ kv.2.timeVisible := by
      intro kv hkv
      have := List.all_eq_true.mp hop kv hkv
      exact of_decide_eq_true this
    refine ⟨fun u => ?_, fun k => ?_, fun tab p => ?_, fun tab p => ?_⟩
    · exact optionMono_refl _
    · exact optionMono_refl _
    · exact upd_time_mono tabId reported cursor scroll now st.interactions tab p hrep
    · exact upd_vis_mono tabId reported cursor scroll now st.interactions tab p

/-- Claim C8.  Across any sequence of visits and well-formed telemetry
reports, every node's `visitCount`, every edge's traversal count, every
element path's accumulated `timeVisible`, and every element path's stored
`visibilityPercentage` are monotonically non-decreasing: whatever was
stored before the sequence is still stored after it, at a value at least
as large. -/
theorem c8_counters_monotone (ops : List Op) :
    ∀ st : SystemState, validOps ops = true →
    (∀ u, optionMono (nodeVisitCount u st) (nodeVisitCount u (runOps ops st))) ∧
    (∀ k, optionMono (edgeTraversals k st) (edgeTraversals k (runOps ops st))) ∧
    (∀ tab p, optionMono (pathTimeVisible tab p st) (pathTimeVisible tab p (runOps ops st))) ∧
    (∀ tab p, optionMono (pathVisibility tab p st) (pathVisibility tab p (runOps ops st))) := by
  induction ops with
  | nil =>
    intro st _
    exact ⟨fun u => optionMono_refl _, fun k => optionMono_refl _,
      fun tab p => optionMono_refl _, fun tab p => optionMono_refl _⟩
  | cons op rest ih =>
    intro st hval
    have hop : validOp op = true :=
      List.all_eq_true.mp hval op (List.mem_cons_self _ _)
    have hrest : validOps rest = true := by
      refine List.all_eq_true.mpr ?_
      intro x hx
      exact List.all_eq_true.mp hval x (List.mem_cons_of_mem _ hx)
    have hstep := stepOp_mono op st hop
    have hih := ih (stepOp st op) hrest
    refine ⟨fun u => optionMono_trans (hstep.1 u) (hih.1 u),
      fun k => optionMono_trans (hstep.2.1 k) (hih.2.1 k),
      fun tab p => optionMono_trans (hstep.2.2.1 tab p) (hih.2.2.1 tab p),
      fun tab p => optionMono_trans (hstep.2.2.2 tab p) (hih.2.2.2 tab p)⟩

theorem c8_witness :
    validOps [Op.visit "a" "T" "1" "1",
      Op.report 1 [("p", ⟨3, 40, "p"⟩)] 2 1 0] = true ∧
    ((∀ u, optionMono
        (nodeVisitCount u ⟨⟨[("a", ⟨"a", "T", "0", 1⟩)], [], some "a", some "a"⟩, []⟩)
        (nodeVisitCount u (runOps [Op.visit "a" "T" "1" "1",
          Op.report 1 [("p", ⟨3, 40, "p"⟩)] 2 1 0]
          ⟨⟨[("a", ⟨"a", "T", "0", 1⟩)], [], some "a", some "a"⟩, []⟩))) ∧
    (∀ k, optionMono
        (edgeTraversals k ⟨⟨[("a", ⟨"a", "T", "0", 1⟩)], [], some "a", some "a"⟩, []⟩)
        (edgeTraversals k (runOps [Op.visit "a" "T" "1" "1",
          Op.report 1 [("p", ⟨3, 40, "p"⟩)] 2 1 0]
          ⟨⟨[("a", ⟨"a", "T", "0", 1⟩)], [], some "a", some "a"⟩, []⟩))) ∧
    (∀ tab p, optionMono
        (pathTimeVisible tab p ⟨⟨[("a", ⟨"a", "T", "0", 1⟩)], [], some "a", some "a"⟩, []⟩)
        (pathTimeVisible tab p (runOps [Op.visit "a" "T" "1" "1",
          Op.report 1 [("p", ⟨3, 40, "p"⟩)] 2 1 0]
          ⟨⟨[("a", ⟨"a", "T", "0", 1⟩)], [], some "a", some "a"⟩, []⟩))) ∧
    (∀ tab p, optionMono
        (pathVisibility tab p ⟨⟨[("a", ⟨"a", "T", "0", 1⟩)], [], some "a", some "a"⟩, []⟩)
        (pathVisibility tab p (runOps [Op.visit "a" "T" "1" "1",
          Op.report 1 [("p", ⟨3, 40, "p"⟩)] 2 1 0]
          ⟨⟨[("a", ⟨"a", "T", "0", 1⟩)], [], some "a", some "a"⟩, []⟩)))) :=
  ⟨by with_unfolding_all decide,
   c8_counters_monotone [Op.visit "a" "T" "1" "1",
     Op.report 1 [("p", ⟨3, 40, "p"⟩)] 2 1 0]
     ⟨⟨[("a", ⟨"a", "T", "0", 1⟩)], [], some "a", some "a"⟩, []⟩
     (by with_unfolding_all decide)⟩

/-! ## C9: the zero-magnitude guard in cosineSimilarity -/

/-- Claim C9.  For equal-length vectors, `cosineSimilarity` returns 0
whenever either vector has zero magnitude, and otherwise returns the dot
product divided by the product of the magnitudes, with that divisor
provably nonzero — the division-by-zero case is unreachable. -/
theorem c9_cosine_zero_guard (v1 v2 : List ℝ) (hlen : v1.length = v2.length) :
    (Real.sqrt (magnitudeSq v1) = 0 ∨ Real.sqrt (magnitudeSq v2) = 0 →
      cosineSimilarity v1 v2 = .ok 0) ∧
    (Real.sqrt (magnitudeSq v1) ≠ 0 → Real.sqrt (magnitudeSq v2) ≠ 0 →
      Real.sqrt (magnitudeSq v1) * Real.sqrt (magnitudeSq v2) ≠ 0 ∧
      cosineSimilarity v1 v2 =
        .ok (dotProduct v1 v2 /
          (Real.sqrt (magnitudeSq v1) * Real.sqrt (magnitudeSq v2)))) := by
  constructor
  · intro h0
    unfold cosineSimilarity
    rw [if_neg (by simp [hlen]), if_pos h0]
  · intro h1 h2
    refine ⟨mul_ne_zero h1 h2, ?_⟩
    unfold cosineSimilarity
    rw [if_neg (by simp [hlen]), if_neg (by rw [not_or]; exact ⟨h1, h2⟩)]

theorem c9_witness :
    ([(1 : ℝ)].length = [(1 : ℝ)].length) ∧
    Real.sqrt (magnitudeSq [(1 : ℝ)]) ≠ 0 ∧
    (Real.sqrt (magnitudeSq [(1 : ℝ)]) * Real.sqrt (magnitudeSq [(1 : ℝ)]) ≠ 0 ∧
      cosineSimilarity [(1 : ℝ)] [(1 : ℝ)] =
        .ok (dotProduct [(1 : ℝ)] [(1 : ℝ)] /
          (Real.sqrt (magnitudeSq [(1 : ℝ)]) * Real.sqrt (magnitudeSq [(1 : ℝ)])))) := by
  have hm : magnitudeSq [(1 : ℝ)] = 1 := by simp [magnitudeSq]
  have hs : Real.sqrt (magnitudeSq [(1 : ℝ)]) = 1 := by rw [hm, Real.sqrt_one]
  have h1 : Real.sqrt (magnitudeSq [(1 : ℝ)]) ≠ 0 := by rw [hs]; norm_num
  exact ⟨rfl, h1, (c9_cosine_zero_guard [(1 : ℝ)] [(1 : ℝ)] rfl).2 h1 h1⟩

/-! ## C10: what reportData resets and what it keeps -/

theorem lookupKey_filter {κ α : Type} [DecidableEq κ] (q : κ × α → Bool)
    (l : List (κ × α)) (k : κ) (v : α)
    (h : lookupKey k l = some v) (hq : q (k, v) = true) :
    lookupKey k (l.filter q) = some v := by
  induction l with
  | nil => simp [lookupKey] at h
  | cons hd tl ih =>
    obtain ⟨p, w⟩ := hd
    by_cases hp : p = k
    · have hw : w = v := by
        have h' := h
        simp only [lookupKey, if_pos hp, Option.some_inj] at h'
        exact h'
      subst hw
      simp [List.filter_cons, lookupKey, hp, hq]
    · have h' : lookupKey k tl = some v := by
        simpa only [lookupKey, if_neg hp] using h
      cases hq2 : q (p, w) with
      | true =>
        simp only [List.filter_cons, hq2, if_pos, lookupKey, if_neg hp]
        exact ih h'
      | false =>
        simp only [List.filter_cons, hq2, Bool.false_eq_true, if_neg]
        exact ih h'

/-- Claim C10.  `reportData` resets the document-level counters
`cursorMovement` and `scrollEvents` to 0 but leaves every element path's
accumulated `timeVisible` untouched, and the message it sends carries the
full accumulated record (filtered at 500 ms), not a delta — so each
periodic report re-sends cumulative totals. -/
theorem c10_report_resets_only_counters (s : TrackerState) :
    (reportData s).2.cursorMovement = 0 ∧
    (reportData s).2.scrollEvents = 0 ∧
    (reportData s).2.viewportData = s.viewportData ∧
    (∀ p d, lookupKey p s.viewportData = some d → 500 ≤ d.timeVisible →
      lookupKey p (reportData s).1.viewportData = some d) := by
  refine ⟨rfl, rfl, rfl, ?_⟩
  intro p d hp hd
  show lookupKey p (s.viewportData.filter fun kv => decide (500 ≤ kv.2.timeVisible)) = some d
  exact lookupKey_filter _ _ _ _ hp (by simpa using hd)

theorem c10_witness :
    lookupKey "p" ([("p", (⟨600, 50, "p"⟩ : VPData))]) = some ⟨600, 50, "p"⟩ ∧
    ((500 : ℚ) ≤ (600 : ℚ)) ∧
    lookupKey "p" (reportData ⟨[("p", ⟨600, 50, "p"⟩)], 7, 3⟩).1.viewportData =
      some ⟨600, 50, "p"⟩ :=
  ⟨by with_unfolding_all decide, by norm_num,
   (c10_report_resets_only_counters ⟨[("p", ⟨600, 50, "p"⟩)], 7, 3⟩).2.2.2 "p"
     ⟨600, 50, "p"⟩ (by with_unfolding_all decide) (by norm_num)⟩

end Memento
